import Mathlib

/-!
Shallow embedding of the step-segmentation helpers of this repository
(`assets/helpers.py`): `check_transition`, `assign_step_number`,
`check_step_completeness` and `process_steps`, together with the pandas
primitives they rely on (`shift`, `isin`, NaN-aware logical operators,
`cumsum`, column assignment), and proofs of the specified properties.
-/

set_option autoImplicit false

/-! ## Generic list lemmas used throughout -/

theorem zipWith_getElem? {α β γ : Type} (f : α → β → γ) (as : List α) (bs : List β)
    (i : Nat) :
    (List.zipWith f as bs)[i]? =
      match as[i]?, bs[i]? with
      | some a, some b => some (f a b)
      | _, _ => none := by
  induction as generalizing bs i with
  | nil => simp
  | cons a as ih =>
    cases bs with
    | nil => simp
    | cons b bs =>
      cases i with
      | zero => simp [List.zipWith]
      | succ j => simpa [List.zipWith] using ih bs j

theorem take_getElem? {α : Type} (xs : List α) (n i : Nat) (h : i < n) :
    (xs.take n)[i]? = xs[i]? := by
  induction xs generalizing n i with
  | nil => simp
  | cons x xs ih =>
    cases n with
    | zero => omega
    | succ m =>
      cases i with
      | zero => simp
      | succ j => simpa using ih m j (by omega)

/-! ## pandas primitives

`Series.shift(1)` prepends a missing value (NaN) and drops the last entry;
a shifted series is therefore `Option`-valued, `none` standing for NaN. -/

/-- The pandas `shift(1)` of a column: NaN first, then the original values
with the last one dropped. -/
def shift1 {α : Type} (xs : List α) : List (Option α) :=
  (none :: xs.map some).take xs.length

/-- pandas `Series.isin` on a shifted column: NaN is never a member, an
actual value is tested for membership in the given collection. -/
def isinOpt (vals : List Int) : Option Int → Bool
  | none => false
  | some q => decide (q ∈ vals)

/-- Occurrence of a pattern inside a character list, starting at any
position. -/
def charsContain (pat : List Char) : List Char → Bool
  | [] => pat.isEmpty
  | c :: cs => pat.isPrefixOf (c :: cs) || charsContain pat cs

/-- The Python substring test `pat in s` (also pandas `str.contains` for a
pattern without regex metacharacters). -/
def strContains (s pat : String) : Bool := charsContain pat.toList s.toList

/-- pandas elementwise `&` between an object column holding NaN (left) and a
boolean column (right): the NaN propagates (`vec_binop` returns the NaN
operand when Python raises `TypeError` on `nan & b`). -/
def andNa (a : Option Bool) (b : Bool) : Option Bool := a.map (fun x => x && b)

/-- pandas elementwise `|` between a boolean column (left) and an object
column holding NaN (right): pandas coerces the right operand with
`fill_bool`, which replaces NaN by `False`, before taking the disjunction. -/
def orFillNa (a : Bool) (b : Option Bool) : Bool := a || b.getD false

/-- Modelled from the spec: the argument of the `isin` call in
`check_transition` is absent from the source file; the spec calls it "some
reference set of prior codes" and the docstring of `check_transition`
describes a transition "from states 1, 2, or 3 to state 0", so the
reference set used by the orchestrator is `[1, 2, 3]`.  The embedding of
`check_transition` keeps the set as an explicit parameter. -/
def priorCodes : List Int := [1, 2, 3]

/-! ## check_transition -/

/-- Embedding of `check_transition(ankle_position_actual, condition)`:

`(ankle_position_actual == 0) & (ankle_position_actual.shift(1).isin(prior))
 | (condition.shift(1).str.contains("UNDEFINED")
    & ~condition.str.contains("UNDEFINED"))`

The shifted columns carry NaN in row 0; `isin` maps NaN to `False`, the
string clause propagates it through `&` and the outer `|` fills it with
`False`, so row 0 of the result is an honest boolean. -/
def check_transition (prior : List Int) (pos : List Int) (cond : List String) :
    List Bool :=
  List.zipWith orFillNa
    (List.zipWith (fun p q => decide (p = 0) && isinOpt prior q) pos (shift1 pos))
    (List.zipWith
      (fun cp c => andNa (cp.map (fun s => strContains s "UNDEFINED"))
        (!(strContains c "UNDEFINED")))
      (shift1 cond) cond)

example : check_transition [1, 2, 3] [1, 2, 3, 0]
    ["SM_WALKING", "SM_WALKING", "SM_WALKING", "SM_WALKING"] =
    [false, false, false, true] := by decide

example : check_transition [1, 2, 3] [1, 1]
    ["X_UNDEFINED", "X_WALKING"] = [false, true] := by decide

example : check_transition [1, 2, 3] [0, 0] ["a", "b"] = [false, false] := by
  decide

theorem shift1_length {α : Type} (xs : List α) : (shift1 xs).length = xs.length := by
  simp [shift1]

theorem shift1_getElem? {α : Type} (xs : List α) (i : Nat) (hi : i < xs.length) :
    (shift1 xs)[i]? = some (if i = 0 then none else xs[i - 1]?) := by
  unfold shift1
  rw [take_getElem? _ _ _ hi]
  cases i with
  | zero => simp
  | succ j =>
    have hj : j < xs.length := by omega
    simp [List.getElem?_eq_getElem hj]

theorem check_transition_length (prior pos : List Int) (cond : List String)
    (hlen : pos.length = cond.length) :
    (check_transition prior pos cond).length = pos.length := by
  simp [check_transition, List.length_zipWith, shift1_length, hlen]

/-- C1: for equal-length position/condition columns, `check_transition`
returns a boolean column of the same length whose entry `i` is true iff
either `position[i] == 0` and `position[i-1]` belongs to the reference set
of prior codes, or `condition[i-1]` contains the substring "UNDEFINED" and
`condition[i]` does not; at `i = 0` there is no predecessor, both clauses
are false, and the call does not error (the entry is an honest `false`). -/
theorem check_transition_spec (prior pos : List Int) (cond : List String)
    (hlen : pos.length = cond.length) :
    (check_transition prior pos cond).length = pos.length ∧
    ∀ i, i < pos.length →
      ((check_transition prior pos cond)[i]? = some true ↔
        ((pos[i]? = some 0 ∧ ∃ j q, i = j + 1 ∧ pos[j]? = some q ∧ q ∈ prior) ∨
         (∃ j c0 c1, i = j + 1 ∧ cond[j]? = some c0 ∧ cond[i]? = some c1 ∧
           strContains c0 "UNDEFINED" = true ∧ strContains c1 "UNDEFINED" = false))) := by
  refine ⟨check_transition_length prior pos cond hlen, ?_⟩
  intro i hi
  have hic : i < cond.length := hlen ▸ hi
  obtain ⟨p, hp⟩ : ∃ p, pos[i]? = some p := ⟨_, List.getElem?_eq_getElem hi⟩
  obtain ⟨c, hc⟩ : ∃ c, cond[i]? = some c := ⟨_, List.getElem?_eq_getElem hic⟩
  rw [check_transition, zipWith_getElem?, zipWith_getElem?, zipWith_getElem?,
    shift1_getElem? pos i hi, shift1_getElem? cond i hic, hp, hc]
  cases i with
  | zero =>
    simp only [if_pos rfl]
    simp [isinOpt, andNa, orFillNa]
  | succ j =>
    have hj : j < pos.length := by omega
    have hjc : j < cond.length := by omega
    obtain ⟨pj, hpj⟩ : ∃ x, pos[j]? = some x := ⟨_, List.getElem?_eq_getElem hj⟩
    obtain ⟨cj, hcj⟩ : ∃ x, cond[j]? = some x := ⟨_, List.getElem?_eq_getElem hjc⟩
    simp only [if_neg (Nat.succ_ne_zero j), Nat.add_sub_cancel, hpj, hcj]
    simp only [isinOpt, andNa, Option.map_some, orFillNa, Option.getD_some,
      Option.some_inj]
    constructor
    · intro h
      rcases Bool.or_eq_true_iff.mp h with h | h
      · rcases Bool.and_eq_true_iff.mp h with ⟨h1, h2⟩
        exact Or.inl ⟨of_decide_eq_true h1, j, pj, rfl, hpj, of_decide_eq_true h2⟩
      · rcases Bool.and_eq_true_iff.mp h with ⟨h1, h2⟩
        exact Or.inr ⟨j, cj, c, rfl, hcj, rfl, h1, by simpa using h2⟩
    · rintro (⟨h0, j', q, hj', hq, hmem⟩ | ⟨j', c0, c1, hj', hc0, hc1, hu0, hu1⟩)
      · have hjj : j' = j := by omega
        subst hjj
        rw [hpj, Option.some_inj] at hq
        subst hq
        subst h0
        simp [hmem]
      · have hjj : j' = j := by omega
        subst hjj
        rw [hcj, Option.some_inj] at hc0
        subst hc0
        subst hc1
        simp [hu0, hu1]

/-! ## assign_step_number -/

/-- pandas `Series.cumsum()` on a boolean column, with a running
accumulator: entry `i` is the number of `true` values up to and including
row `i`, offset by `a`. -/
def cumsumFrom (a : Int) : List Bool → List Int
  | [] => []
  | b :: bs => (a + if b then 1 else 0) :: cumsumFrom (a + if b then 1 else 0) bs

/-- Embedding of `assign_step_number(transition, step_number)`:
`transition.cumsum() + step_number`. -/
def assign_step_number (transition : List Bool) (step_number : Int) : List Int :=
  (cumsumFrom 0 transition).map (fun x => x + step_number)

example : assign_step_number [false, true, false, true] 0 = [0, 1, 1, 2] := by
  decide

theorem cumsumFrom_length (t : List Bool) : ∀ a : Int, (cumsumFrom a t).length = t.length := by
  induction t with
  | nil => intro a; rfl
  | cons b bs ih => intro a; simp [cumsumFrom, ih]

theorem cumsumFrom_getElem? (t : List Bool) :
    ∀ (a : Int) (i : Nat), i < t.length →
      (cumsumFrom a t)[i]? = some (a + (((t.take (i + 1)).count true : Nat) : Int)) := by
  induction t with
  | nil => intro a i hi; simp at hi
  | cons b bs ih =>
    intro a i hi
    cases i with
    | zero => cases b <;> simp [cumsumFrom, List.count_cons]
    | succ j =>
      have hj : j < bs.length := by simpa using hi
      have := ih (a + if b then 1 else 0) j hj
      simp only [cumsumFrom, List.getElem?_cons_succ, this, List.take_succ_cons,
        List.count_cons]
      cases b
      · simp
      · simp
        omega

theorem assign_step_number_length (t : List Bool) (k : Int) :
    (assign_step_number t k).length = t.length := by
  simp [assign_step_number, cumsumFrom_length]

theorem assign_step_number_getElem? (t : List Bool) (k : Int) (i : Nat)
    (hi : i < t.length) :
    (assign_step_number t k)[i]? =
      some (k + (((t.take (i + 1)).count true : Nat) : Int)) := by
  have h := cumsumFrom_getElem? t 0 i hi
  simp only [assign_step_number, List.getElem?_map, h, Option.map_some']
  congr 1
  ring

/-- C3: `assign_step_number` returns a column of the same length as the
transition column, whose entry `i` equals the start value plus the number
of `true` transition flags among rows `0..i` inclusive (an inclusive
prefix sum offset by the start value). -/
theorem assign_step_number_spec (t : List Bool) (k : Int) :
    (assign_step_number t k).length = t.length ∧
    ∀ i, i < t.length →
      (assign_step_number t k)[i]? =
        some (k + (((t.take (i + 1)).count true : Nat) : Int)) := by
  refine ⟨assign_step_number_length t k, ?_⟩
  intro i hi
  exact assign_step_number_getElem? t k i hi

/-- Witness for C3 at a concrete transition column. -/
theorem assign_step_number_spec_witness :
    (assign_step_number [false, true, true] 5)[2]? =
      some (5 + ((([false, true, true].take 3).count true : Nat) : Int)) :=
  (assign_step_number_spec [false, true, true] 5).2 2 (by decide)

theorem count_take_mono (t : List Bool) :
    ∀ m n : Nat, m ≤ n → (t.take m).count true ≤ (t.take n).count true := by
  induction t with
  | nil => intro m n _; simp
  | cons b bs ih =>
    intro m n hmn
    cases m with
    | zero => simp
    | succ m' =>
      cases n with
      | zero => omega
      | succ n' =>
        simp only [List.take_succ_cons, List.count_cons]
        have := ih m' n' (by omega)
        omega

/-- C7: the step-index column produced by `assign_step_number` is
monotonically non-decreasing: adjacent entries satisfy
`step[i] <= step[i+1]` for every transition column and start value. -/
theorem assign_step_number_mono (t : List Bool) (k : Int) (i : Nat) (a b : Int)
    (ha : (assign_step_number t k)[i]? = some a)
    (hb : (assign_step_number t k)[i + 1]? = some b) : a ≤ b := by
  have hi1 : i + 1 < t.length := by
    by_contra hcon
    rw [List.getElem?_eq_none (by rw [assign_step_number_length]; omega)] at hb
    exact Option.noConfusion hb
  have hi : i < t.length := by omega
  rw [assign_step_number_getElem? t k i hi, Option.some_inj] at ha
  rw [assign_step_number_getElem? t k (i + 1) hi1, Option.some_inj] at hb
  have hc := count_take_mono t (i + 1) (i + 1 + 1) (by omega)
  omega

/-- Witness for C7 at a concrete transition column. -/
theorem assign_step_number_mono_witness :
    (assign_step_number [true, false, true, true] 2)[2]? = some 4 ∧ (4 : Int) ≤ 5 :=
  ⟨by decide, assign_step_number_mono [true, false, true, true] 2 2 4 5 (by decide) (by decide)⟩

/-! ## check_step_completeness

The source iterates over `df[step_number_col].unique()`; for each step value
it computes the number of distinct ankle-position codes of the step's rows
and overwrites the working column `step_complete` (initialized to `True`)
with `False` on the rows of incomplete steps.  The embedding works on the
three columns the function reads: step numbers, ankle positions and the
`condition` column (the latter is accessed by attribute name in the
source). -/

/-- Helper for `pdUnique`: keeps the values of the first list not yet seen,
in order of first appearance. -/
def pdUniqueAux : List Int → List Int → List Int
  | [], _ => []
  | x :: xs, seen =>
    if x ∈ seen then pdUniqueAux xs seen else x :: pdUniqueAux xs (x :: seen)

/-- pandas `Series.unique()`: distinct values in order of first
appearance. -/
def pdUnique (xs : List Int) : List Int := pdUniqueAux xs []

/-- The ankle-position codes of the rows whose step number equals `s`
(`df[df[step_number_col] == step][ankle_position_col]`). -/
def groupCodes (steps ankles : List Int) (s : Int) : List Int :=
  ((steps.zip ankles).filter (fun p => p.1 = s)).map Prod.snd

/-- pandas `nunique()` of the ankle-position codes of the step-`s` group. -/
def nuniqueGroup (steps ankles : List Int) (s : Int) : Nat :=
  (pdUnique (groupCodes steps ankles s)).length

/-- Python `~` applied to a genuine `bool`: `~True == -2`, `~False == -1`
(both of which are truthy integers). -/
def pyNot (b : Bool) : Int := if b then -2 else -1

/-- A numpy boolean promoted to an integer for a bitwise operation. -/
def npBoolToInt (b : Bool) : Int := if b then 1 else 0

/-- Python truthiness of an integer. -/
def pyTruthy (n : Int) : Bool := decide (n ≠ 0)

/-- The guard of the `nunique == 3` branch of the source:
`~(unique == [1., 2., 3.]).all() | ~("UNDEFINED" in reference.condition)`.
The left operand is a numpy boolean; the right operand applies Python `~`
to a Python `bool`, producing `-2` or `-1`, and `|` is the bitwise or of
the two, tested for truthiness by `if`. -/
def threeCond (u : List Int) (rc : String) : Bool :=
  pyTruthy (Int.lor (npBoolToInt (!(u == [1, 2, 3]))) (pyNot (strContains rc "UNDEFINED")))

/-- Modelled from the spec: the subscript of the `iloc` lookup
`df.iloc[df[(df[step_number_col] == 1)].iloc.name - 1]` is incomplete in
the source; the spec reads it as "the condition label of the row
immediately preceding the first row of step index 1 (a specific fixed
reference, not the current step)".  The embedding returns that row's
condition, and `none` when there is no row with step index 1 or its first
row is row 0 (where the source lookup has no preceding row and raises). -/
def refCondition (steps : List Int) (conds : List String) : Option String :=
  match steps.findIdx? (fun s => s == 1) with
  | none => none
  | some i => if i = 0 then none else conds[i - 1]?

/-- The pandas row-selection assignment
`df.loc[df[step_number_col] == step, "step_complete"] = False`. -/
def setFlags (steps : List Int) (flags : List Bool) (s : Int) : List Bool :=
  List.zipWith (fun st f => if st = s then false else f) steps flags

/-- The loop of `check_step_completeness` over the distinct step values:
each iteration recomputes the distinct ankle codes of the step's rows and
overwrites the step's flags with `False` in the incomplete branches;
`none` models the Python exception raised by the reference-row lookup of
the `nunique == 3` branch when the lookup is undefined. -/
def csIter (steps ankles : List Int) (rc : Option String) :
    List Int → List Bool → Option (List Bool)
  | [], flags => some flags
  | s :: rest, flags =>
    if (pdUnique (groupCodes steps ankles s)).length < 3 then
      csIter steps ankles rc rest (setFlags steps flags s)
    else if (pdUnique (groupCodes steps ankles s)).length = 3 then
      match rc with
      | none => none
      | some c =>
        if threeCond (pdUnique (groupCodes steps ankles s)) c then
          csIter steps ankles rc rest (setFlags steps flags s)
        else
          csIter steps ankles rc rest flags
    else
      csIter steps ankles rc rest flags

/-- Embedding of `check_step_completeness(df, step_number_col,
ankle_position_col)` on the three columns it reads: the working column is
initialized to `True`, the loop runs over the unique step values, and the
final working column is returned. -/
def check_step_completeness (steps ankles : List Int) (conds : List String) :
    Option (List Bool) :=
  csIter steps ankles (refCondition steps conds) (pdUnique steps)
    (steps.map (fun _ => true))

example : check_step_completeness [0, 0, 0, 0] [1, 2, 4, 7] ["w", "x", "y", "z"] =
    some [true, true, true, true] := by decide

example : check_step_completeness [0, 0, 0] [1, 2, 3] ["w", "x", "y"] = none := by
  decide

example : check_step_completeness [0, 1, 1, 1] [5, 1, 2, 3]
    ["SM_UNDEFINED", "a", "b", "c"] = some [false, false, false, false] := by
  decide

theorem mem_of_getElem? {α : Type} {l : List α} {i : Nat} {a : α}
    (h : l[i]? = some a) : a ∈ l := by
  induction l generalizing i with
  | nil => simp at h
  | cons x xs ih =>
    cases i with
    | zero => simp at h; simp [h]
    | succ j => exact List.mem_cons_of_mem x (ih (by simpa using h))

theorem mem_pdUniqueAux (x : Int) :
    ∀ (xs seen : List Int), x ∈ pdUniqueAux xs seen ↔ (x ∈ xs ∧ x ∉ seen) := by
  intro xs
  induction xs with
  | nil => intro seen; simp [pdUniqueAux]
  | cons y ys ih =>
    intro seen
    by_cases hy : y ∈ seen
    · rw [pdUniqueAux, if_pos hy, ih]
      constructor
      · rintro ⟨h1, h2⟩
        exact ⟨List.mem_cons_of_mem y h1, h2⟩
      · rintro ⟨h1, h2⟩
        rcases List.mem_cons.mp h1 with rfl | h1
        · exact absurd hy h2
        · exact ⟨h1, h2⟩
    · rw [pdUniqueAux, if_neg hy]
      by_cases hxy : x = y
      · subst hxy
        simp [hy]
      · rw [List.mem_cons]
        simp only [hxy, false_or, ih, List.mem_cons]

theorem mem_pdUnique (x : Int) (xs : List Int) : x ∈ pdUnique xs ↔ x ∈ xs := by
  rw [pdUnique, mem_pdUniqueAux]
  simp

theorem setFlags_length (steps : List Int) (flags : List Bool) (s : Int) :
    (setFlags steps flags s).length = min steps.length flags.length := by
  simp [setFlags]

theorem setFlags_getElem? (steps : List Int) (flags : List Bool) (s : Int)
    (i : Nat) :
    (setFlags steps flags s)[i]? =
      match steps[i]?, flags[i]? with
      | some st, some f => some (if st = s then false else f)
      | _, _ => none := by
  unfold setFlags
  rw [zipWith_getElem?]
  cases steps[i]? <;> cases flags[i]? <;> rfl

/-- The guard of the `nunique == 3` branch is identically true: Python `~`
applied to the `bool` of `"UNDEFINED" in ...` yields `-2` or `-1`, and the
bitwise or of `0` or `1` with either of these is a negative (truthy)
integer. -/
theorem threeCond_true (u : List Int) (rc : String) : threeCond u rc = true := by
  rw [threeCond, pyTruthy, npBoolToInt, pyNot]
  cases h1 : (u == [1, 2, 3]) <;> cases h2 : strContains rc "UNDEFINED" <;>
    simp only [Bool.not_true, Bool.not_false, if_true, if_false] <;> decide

/-- Whether the iteration for step value `s` overwrites the step's flags
with `False`: in the `nunique < 3` branch always, in the `nunique == 3`
branch when the reference row exists and the (identically true) guard
holds. -/
def clearFor (steps ankles : List Int) (rc : Option String) (s : Int) : Bool :=
  decide ((pdUnique (groupCodes steps ankles s)).length < 3) ||
    (decide ((pdUnique (groupCodes steps ankles s)).length = 3) &&
      (match rc with
       | none => false
       | some c => threeCond (pdUnique (groupCodes steps ankles s)) c))

theorem csIter_some (steps ankles : List Int) (rc : Option String) :
    ∀ (L : List Int) (flags flags' : List Bool),
      flags.length = steps.length →
      csIter steps ankles rc L flags = some flags' →
      flags'.length = steps.length ∧
      ∀ (i : Nat) (st : Int) (f : Bool), steps[i]? = some st → flags[i]? = some f →
        flags'[i]? =
          some (if st ∈ L ∧ clearFor steps ankles rc st = true then false else f) := by
  intro L
  induction L with
  | nil =>
    intro flags flags' hl h
    rw [csIter, Option.some_inj] at h
    subst h
    refine ⟨hl, ?_⟩
    intro i st f _ hf
    simp [hf]
  | cons s rest ih =>
    intro flags flags' hl h
    have hsl : (setFlags steps flags s).length = steps.length := by
      rw [setFlags_length, hl, Nat.min_self]
    have hstep : ∀ (h : csIter steps ankles rc rest (setFlags steps flags s) = some flags'),
        clearFor steps ankles rc s = true →
        flags'.length = steps.length ∧
        ∀ (i : Nat) (st : Int) (f : Bool), steps[i]? = some st → flags[i]? = some f →
          flags'[i]? =
            some (if st ∈ s :: rest ∧ clearFor steps ankles rc st = true then false
              else f) := by
      intro h hcl
      obtain ⟨hlen, hpt⟩ := ih (setFlags steps flags s) flags' hsl h
      refine ⟨hlen, ?_⟩
      intro i st f hst hf
      have hfi : (setFlags steps flags s)[i]? = some (if st = s then false else f) := by
        rw [setFlags_getElem?, hst, hf]
      rw [hpt i st (if st = s then false else f) hst hfi]
      by_cases hss : st = s
      · subst hss
        by_cases hmem : st ∈ rest <;> simp [hcl, hmem]
      · simp [List.mem_cons, hss]
    have hskip : ∀ (h : csIter steps ankles rc rest flags = some flags'),
        clearFor steps ankles rc s = false →
        flags'.length = steps.length ∧
        ∀ (i : Nat) (st : Int) (f : Bool), steps[i]? = some st → flags[i]? = some f →
          flags'[i]? =
            some (if st ∈ s :: rest ∧ clearFor steps ankles rc st = true then false
              else f) := by
      intro h hcl
      obtain ⟨hlen, hpt⟩ := ih flags flags' hl h
      refine ⟨hlen, ?_⟩
      intro i st f hst hf
      rw [hpt i st f hst hf]
      by_cases hss : st = s
      · subst hss
        rw [hcl]
        simp
      · simp only [List.mem_cons, hss, false_or]
    simp only [csIter] at h
    by_cases h3 : (pdUnique (groupCodes steps ankles s)).length < 3
    · rw [if_pos h3] at h
      exact hstep h (by simp [clearFor, h3])
    · rw [if_neg h3] at h
      by_cases heq : (pdUnique (groupCodes steps ankles s)).length = 3
      · rw [if_pos heq] at h
        cases hrc : rc with
        | none =>
          rw [hrc] at h
          simp at h
        | some c =>
          rw [hrc] at h
          simp only [threeCond_true, if_true] at h
          rw [← hrc] at h
          rw [show (some c : Option String) = rc from hrc.symm]
          exact hstep h (by simp [clearFor, heq, hrc, threeCond_true])
      · rw [if_neg heq] at h
        exact hskip h (by simp [clearFor, h3, heq])

theorem csIter_rc_none_no_three (steps ankles : List Int) :
    ∀ (L : List Int) (flags flags' : List Bool),
      csIter steps ankles none L flags = some flags' →
      ∀ s ∈ L, (pdUnique (groupCodes steps ankles s)).length ≠ 3 := by
  intro L
  induction L with
  | nil =>
    intro flags flags' _ s hs
    simp at hs
  | cons s0 rest ih =>
    intro flags flags' h s hs
    simp only [csIter] at h
    by_cases h3 : (pdUnique (groupCodes steps ankles s0)).length < 3
    · rw [if_pos h3] at h
      rcases List.mem_cons.mp hs with rfl | hs
      · omega
      · exact ih _ _ h s hs
    · rw [if_neg h3] at h
      by_cases heq : (pdUnique (groupCodes steps ankles s0)).length = 3
      · rw [if_pos heq] at h
        simp at h
      · rw [if_neg heq] at h
        rcases List.mem_cons.mp hs with rfl | hs
        · exact heq
        · exact ih _ _ h s hs

theorem clearFor_some (steps ankles : List Int) (c : String) (s : Int) :
    clearFor steps ankles (some c) s =
      decide ((pdUnique (groupCodes steps ankles s)).length ≤ 3) := by
  simp only [clearFor, threeCond_true, Bool.and_true]
  rcases Nat.lt_trichotomy (pdUnique (groupCodes steps ankles s)).length 3 with h | h | h
  · simp [h, Nat.le_of_lt h]
  · simp [h]
  · have h1 : ¬(pdUnique (groupCodes steps ankles s)).length < 3 := by omega
    have h2 : (pdUnique (groupCodes steps ankles s)).length ≠ 3 := by omega
    have h3 : ¬(pdUnique (groupCodes steps ankles s)).length ≤ 3 := by omega
    simp [h1, h2, h3]

theorem clearFor_none (steps ankles : List Int) (s : Int) :
    clearFor steps ankles none s =
      decide ((pdUnique (groupCodes steps ankles s)).length < 3) := by
  simp [clearFor]

/-- Pointwise description of a successful run of `check_step_completeness`:
the returned column has one flag per input row, and the flag of row `i` is
`true` exactly when the row's step group has strictly more than 3 distinct
ankle-position codes (over 3-code groups the identically-true branch guard
always clears the flag, and under 3 codes the first branch clears it). -/
theorem check_some_flags (steps ankles : List Int) (conds : List String)
    (flags : List Bool)
    (h : check_step_completeness steps ankles conds = some flags) :
    flags.length = steps.length ∧
    ∀ (i : Nat) (st : Int), steps[i]? = some st →
      flags[i]? = some (decide (3 < nuniqueGroup steps ankles st)) := by
  rw [check_step_completeness] at h
  obtain ⟨hlen, hpt⟩ := csIter_some steps ankles (refCondition steps conds)
    (pdUnique steps) _ flags (by simp) h
  refine ⟨hlen, ?_⟩
  intro i st hst
  have hf : (steps.map (fun _ : Int => true))[i]? = some true := by
    rw [List.getElem?_map, hst]
    rfl
  rw [hpt i st true hst hf]
  have hmem : st ∈ pdUnique steps := (mem_pdUnique st steps).mpr (mem_of_getElem? hst)
  unfold nuniqueGroup
  congr 1
  rcases hrc : refCondition steps conds with _ | c
  · have hne := csIter_rc_none_no_three steps ankles (pdUnique steps) _ flags
      (hrc ▸ h) st hmem
    rw [clearFor_none]
    by_cases hlt : (pdUnique (groupCodes steps ankles st)).length < 3
    · have h5 : ¬3 < (pdUnique (groupCodes steps ankles st)).length := by omega
      simp [hmem, hlt, h5]
    · have h5 : 3 < (pdUnique (groupCodes steps ankles st)).length := by omega
      simp [hmem, hlt, h5]
  · rw [clearFor_some]
    by_cases h4 : (pdUnique (groupCodes steps ankles st)).length ≤ 3
    · have h5 : ¬3 < (pdUnique (groupCodes steps ankles st)).length := by omega
      simp [hmem, h4, h5]
    · have h5 : 3 < (pdUnique (groupCodes steps ankles st)).length := by omega
      simp [hmem, h4, h5]

/-! ## Claims about check_step_completeness -/

/-- C2: on a step group with exactly 3 distinct ankle-position codes, the
checker flags the step COMPLETE only if the distinct codes are exactly
{1,2,3} and the condition of the row preceding the first step-1 row
contains "UNDEFINED"; in every other case every row of the group is
flagged INCOMPLETE.  (In fact the identically-true branch guard makes the
checker flag every 3-code group INCOMPLETE, so the necessary condition
holds vacuously and the INCOMPLETE direction holds outright.) -/
theorem check_step_completeness_three_codes (steps ankles : List Int)
    (conds : List String) (flags : List Bool) (i : Nat) (st : Int)
    (h : check_step_completeness steps ankles conds = some flags)
    (hst : steps[i]? = some st)
    (h3 : nuniqueGroup steps ankles st = 3) :
    (flags[i]? = some true →
      (∀ c : Int, c ∈ pdUnique (groupCodes steps ankles st) ↔ c ∈ ([1, 2, 3] : List Int)) ∧
      ∃ rc, refCondition steps conds = some rc ∧ strContains rc "UNDEFINED" = true) ∧
    ((¬(∀ c : Int, c ∈ pdUnique (groupCodes steps ankles st) ↔ c ∈ ([1, 2, 3] : List Int)) ∨
      (∀ rc, refCondition steps conds = some rc → strContains rc "UNDEFINED" = false)) →
      flags[i]? = some false) := by
  obtain ⟨_, hpt⟩ := check_some_flags _ _ _ _ h
  have hfi : flags[i]? = some false := by
    rw [hpt i st hst]
    simp [show ¬3 < nuniqueGroup steps ankles st from by omega]
  constructor
  · intro htrue
    rw [hfi] at htrue
    simp at htrue
  · intro _
    exact hfi

/-- Witness for C2 at a concrete table whose step-1 group has the distinct
codes {1,2,4}. -/
theorem check_step_completeness_three_codes_witness :
    check_step_completeness [0, 1, 1, 1] [5, 1, 2, 4] ["SM_UNDEFINED", "a", "b", "c"] =
      some [false, false, false, false] ∧
    ([false, false, false, false] : List Bool)[1]? = some false :=
  ⟨by decide,
    (check_step_completeness_three_codes [0, 1, 1, 1] [5, 1, 2, 4]
        ["SM_UNDEFINED", "a", "b", "c"] [false, false, false, false] 1 1
        (by decide) (by decide) (by decide)).2
      (Or.inl (fun hall => absurd ((hall 4).mp (by decide)) (by decide)))⟩

/-- C6: a step group with fewer than 3 distinct ankle-position codes has
every row flagged INCOMPLETE, and one with more than 3 distinct codes has
every row flagged COMPLETE. -/
theorem check_step_completeness_thresholds (steps ankles : List Int)
    (conds : List String) (flags : List Bool)
    (h : check_step_completeness steps ankles conds = some flags) :
    ∀ (i : Nat) (st : Int), steps[i]? = some st →
      (nuniqueGroup steps ankles st < 3 → flags[i]? = some false) ∧
      (3 < nuniqueGroup steps ankles st → flags[i]? = some true) := by
  obtain ⟨_, hpt⟩ := check_some_flags _ _ _ _ h
  intro i st hst
  constructor
  · intro hlt
    rw [hpt i st hst]
    simp [show ¬3 < nuniqueGroup steps ankles st from by omega]
  · intro hgt
    rw [hpt i st hst]
    simp [hgt]

/-- Witness for C6 at a table with a 4-code group and a 1-code group. -/
theorem check_step_completeness_thresholds_witness :
    check_step_completeness [0, 0, 0, 0, 1] [1, 2, 3, 0, 5] ["x", "x", "x", "x", "x"] =
      some [true, true, true, true, false] ∧
    ((nuniqueGroup [0, 0, 0, 0, 1] [1, 2, 3, 0, 5] 0 < 3 →
        ([true, true, true, true, false] : List Bool)[0]? = some false) ∧
      (3 < nuniqueGroup [0, 0, 0, 0, 1] [1, 2, 3, 0, 5] 0 →
        ([true, true, true, true, false] : List Bool)[0]? = some true)) :=
  ⟨by decide,
    check_step_completeness_thresholds [0, 0, 0, 0, 1] [1, 2, 3, 0, 5]
      ["x", "x", "x", "x", "x"] [true, true, true, true, false] (by decide) 0 0
      (by decide)⟩

/-- C8: ankle-position codes outside {0,1,2,3} are not validated: they are
counted as ordinary distinct values when sizing a group's distinct-code
set, and no error is reported on their account; in particular a group with
codes {1,2,4,7} has 4 distinct codes and is flagged COMPLETE. -/
theorem check_step_completeness_domain (steps ankles : List Int)
    (conds : List String) (flags : List Bool) (i : Nat) (st c : Int)
    (h : check_step_completeness steps ankles conds = some flags)
    (hst : steps[i]? = some st)
    (_hc : c ∈ groupCodes steps ankles st)
    (_hdom : c ∉ ([0, 1, 2, 3] : List Int))
    (h4 : 3 < nuniqueGroup steps ankles st) :
    flags[i]? = some true ∧
    check_step_completeness [0, 0, 0, 0] [1, 2, 4, 7] ["w", "x", "y", "z"] =
      some [true, true, true, true] := by
  obtain ⟨_, hpt⟩ := check_some_flags _ _ _ _ h
  refine ⟨?_, by decide⟩
  rw [hpt i st hst]
  simp [h4]

/-- Witness for C8 at a concrete table containing the codes 4 and 7. -/
theorem check_step_completeness_domain_witness :
    ([true, true, true, true] : List Bool)[0]? = some true ∧
    check_step_completeness [0, 0, 0, 0] [1, 2, 4, 7] ["w", "x", "y", "z"] =
      some [true, true, true, true] :=
  check_step_completeness_domain [0, 0, 0, 0] [1, 2, 4, 7] ["w", "x", "y", "z"]
    [true, true, true, true] 0 0 7 (by decide) (by decide) (by decide) (by decide)
    (by decide)

/-- C9: the flag column returned by the checker is aligned to the row
order (one flag per row) and is constant within each step-index group:
rows with equal step values receive equal flags. -/
theorem check_step_completeness_groupwise (steps ankles : List Int)
    (conds : List String) (flags : List Bool)
    (h : check_step_completeness steps ankles conds = some flags) :
    flags.length = steps.length ∧
    ∀ (i j : Nat) (si sj : Int), steps[i]? = some si → steps[j]? = some sj →
      si = sj → flags[i]? = flags[j]? := by
  obtain ⟨hlen, hpt⟩ := check_some_flags _ _ _ _ h
  refine ⟨hlen, ?_⟩
  intro i j si sj hi hj hij
  rw [hpt i si hi, hpt j sj hj, hij]

/-- Witness for C9 at a concrete table with a two-row step group. -/
theorem check_step_completeness_groupwise_witness :
    ([false, false, false] : List Bool).length = ([0, 0, 1] : List Int).length ∧
    ([false, false, false] : List Bool)[0]? = ([false, false, false] : List Bool)[1]? :=
  have h := check_step_completeness_groupwise [0, 0, 1] [1, 1, 2] ["x", "y", "z"]
    [false, false, false] (by decide)
  ⟨h.1, h.2 0 1 0 0 (by decide) (by decide) rfl⟩

theorem csIter_cond_irrel (steps ankles : List Int) (rc1 rc2 : Option String) :
    ∀ (L : List Int) (flags : List Bool),
      (∀ s ∈ L, (pdUnique (groupCodes steps ankles s)).length ≠ 3) →
      csIter steps ankles rc1 L flags = csIter steps ankles rc2 L flags := by
  intro L
  induction L with
  | nil => intro flags _; rfl
  | cons s0 rest ih =>
    intro flags hL
    have h0 : (pdUnique (groupCodes steps ankles s0)).length ≠ 3 := hL s0 (by simp)
    have hrest : ∀ s ∈ rest, (pdUnique (groupCodes steps ankles s)).length ≠ 3 :=
      fun s hs => hL s (List.mem_cons_of_mem _ hs)
    simp only [csIter]
    by_cases h3 : (pdUnique (groupCodes steps ankles s0)).length < 3
    · rw [if_pos h3, if_pos h3]
      exact ih _ hrest
    · rw [if_neg h3, if_neg h3, if_neg h0, if_neg h0]
      exact ih _ hrest

/-- C10: when no step group has exactly 3 distinct ankle-position codes,
the checker's output does not depend on the condition column: two tables
agreeing on the step and ankle columns but with arbitrary condition
columns receive identical results. -/
theorem check_step_completeness_cond_irrel (steps ankles : List Int)
    (conds1 conds2 : List String)
    (h : ∀ s ∈ steps, nuniqueGroup steps ankles s ≠ 3) :
    check_step_completeness steps ankles conds1 =
      check_step_completeness steps ankles conds2 := by
  unfold check_step_completeness
  exact csIter_cond_irrel steps ankles _ _ (pdUnique steps) _
    (fun s hs => h s ((mem_pdUnique s steps).mp hs))

/-- Witness for C10 at a concrete table (conditions differ arbitrarily). -/
theorem check_step_completeness_cond_irrel_witness :
    check_step_completeness [0, 0] [1, 1] ["a_UNDEFINED", "b"] =
      check_step_completeness [0, 0] [1, 1] ["x", "y"] :=
  check_step_completeness_cond_irrel [0, 0] [1, 1] ["a_UNDEFINED", "b"] ["x", "y"]
    (by decide)

/-- C4: every stage maps empty input to empty output without failing:
`check_transition` on empty columns returns the empty column for any
reference set, `assign_step_number` on an empty transition column returns
the empty column for any start value, and `check_step_completeness` on an
empty table returns (rather than raising) an empty flag column. -/
theorem empty_input_stages :
    (∀ prior : List Int, check_transition prior [] [] = []) ∧
    (∀ k : Int, assign_step_number [] k = []) ∧
    check_step_completeness [] [] [] = some [] :=
  ⟨fun _ => rfl, fun _ => rfl, rfl⟩

/-- Witness for C1 at the rest-return scenario `position = [1,2,3,0]`. -/
theorem check_transition_spec_witness :
    ((check_transition [1, 2, 3] [1, 2, 3, 0]
        ["SM_WALKING", "SM_WALKING", "SM_WALKING", "SM_WALKING"])[3]? = some true ↔
      ((([1, 2, 3, 0] : List Int)[3]? = some 0 ∧
        ∃ j q, 3 = j + 1 ∧ ([1, 2, 3, 0] : List Int)[j]? = some q ∧
          q ∈ ([1, 2, 3] : List Int)) ∨
       (∃ j c0 c1, 3 = j + 1 ∧
         (["SM_WALKING", "SM_WALKING", "SM_WALKING", "SM_WALKING"] : List String)[j]? =
           some c0 ∧
         (["SM_WALKING", "SM_WALKING", "SM_WALKING", "SM_WALKING"] : List String)[3]? =
           some c1 ∧
         strContains c0 "UNDEFINED" = true ∧ strContains c1 "UNDEFINED" = false))) :=
  (check_transition_spec [1, 2, 3] [1, 2, 3, 0]
      ["SM_WALKING", "SM_WALKING", "SM_WALKING", "SM_WALKING"] rfl).2 3 (by decide)

/-! ## process_steps over a DataFrame

A pandas DataFrame is modelled as an ordered association list of named
columns.  `df['name'] = column` overwrites an existing column in place and
otherwise appends it at the end, which is what `setCol` does.  The two
`check_step_completeness` calls receive `df.copy()`, so their working
`step_complete` column is written to a discarded copy; in the value
semantics of the embedding the checker simply returns the flag column. -/

/-- A cell of the table: the columns used here hold integers, strings or
booleans. -/
inductive Val where
  | int : Int → Val
  | str : String → Val
  | bool : Bool → Val
deriving DecidableEq

/-- A DataFrame: named columns in order. -/
abbrev DataFrame := List (String × List Val)

/-- The column names of a DataFrame, in order. -/
def colNames (df : DataFrame) : List String := df.map Prod.fst

/-- Column lookup (`df[name]`); an absent column reads as empty. -/
def getCol : DataFrame → String → List Val
  | [], _ => []
  | (a, v) :: rest, nm => if a = nm then v else getCol rest nm

/-- Column assignment (`df[name] = column`): overwrite in place when the
name exists, append at the end otherwise. -/
def setCol : DataFrame → String → List Val → DataFrame
  | [], nm, col => [(nm, col)]
  | (a, v) :: rest, nm, col =>
    if a = nm then (a, col) :: rest else (a, v) :: setCol rest nm col

/-- Integer reading of a cell (booleans coerce, as in numpy). -/
def Val.asInt : Val → Int
  | .int i => i
  | .bool b => if b then 1 else 0
  | .str _ => 0

/-- String reading of a cell. -/
def Val.asStr : Val → String
  | .str s => s
  | _ => ""

/-- Boolean reading of a cell (Python truthiness for the other kinds). -/
def Val.asBool : Val → Bool
  | .bool b => b
  | .int i => decide (i ≠ 0)
  | .str s => decide (s ≠ "")

/-- A column read as integers. -/
def colInts (df : DataFrame) (nm : String) : List Int := (getCol df nm).map Val.asInt

/-- A column read as strings. -/
def colStrs (df : DataFrame) (nm : String) : List String := (getCol df nm).map Val.asStr

/-- A column read as booleans. -/
def colBools (df : DataFrame) (nm : String) : List Bool := (getCol df nm).map Val.asBool

/-- Embedding of `process_steps(df, ankle_position_col_left,
ankle_position_col_right, condition_col)`: per-leg transition detection,
step numbering with start 0, and completeness checking, each writing its
column onto the table; `none` models the exception propagated from a
failing `check_step_completeness` call.  The completeness calls read the
step column just written, the leg's ankle column, and the column literally
named `condition` (the source accesses it by attribute). -/
def process_steps (df : DataFrame) (l r c : String) : Option DataFrame :=
  let df1 := setCol df "transition_left"
    ((check_transition priorCodes (colInts df l) (colStrs df c)).map Val.bool)
  let df2 := setCol df1 "transition_right"
    ((check_transition priorCodes (colInts df1 r) (colStrs df1 c)).map Val.bool)
  let df3 := setCol df2 "step_number_l"
    ((assign_step_number (colBools df2 "transition_left") 0).map Val.int)
  let df4 := setCol df3 "step_number_r"
    ((assign_step_number (colBools df3 "transition_right") 0).map Val.int)
  match check_step_completeness (colInts df4 "step_number_l") (colInts df4 l)
      (colStrs df4 "condition") with
  | none => none
  | some fl =>
    let df5 := setCol df4 "step_complete_l" (fl.map Val.bool)
    match check_step_completeness (colInts df5 "step_number_r") (colInts df5 r)
        (colStrs df5 "condition") with
    | none => none
    | some fr => some (setCol df5 "step_complete_r" (fr.map Val.bool))

/-- The six column names written by `process_steps`, in order. -/
def newColNames : List String :=
  ["transition_left", "transition_right", "step_number_l", "step_number_r",
   "step_complete_l", "step_complete_r"]

example : process_steps
    [("ankle_l", [Val.int 1]), ("ankle_r", [Val.int 1]),
     ("condition", [Val.str "SM_WALKING"])]
    "ankle_l" "ankle_r" "condition" =
    some [("ankle_l", [Val.int 1]), ("ankle_r", [Val.int 1]),
      ("condition", [Val.str "SM_WALKING"]),
      ("transition_left", [Val.bool false]), ("transition_right", [Val.bool false]),
      ("step_number_l", [Val.int 0]), ("step_number_r", [Val.int 0]),
      ("step_complete_l", [Val.bool false]), ("step_complete_r", [Val.bool false])] := by
  decide

theorem colNames_append (df1 df2 : DataFrame) :
    colNames (df1 ++ df2) = colNames df1 ++ colNames df2 := by
  simp [colNames]

theorem setCol_fresh (df : DataFrame) (nm : String) (h : nm ∉ colNames df) :
    ∀ col : List Val, setCol df nm col = df ++ [(nm, col)] := by
  induction df with
  | nil => intro col; rfl
  | cons p rest ih =>
    intro col
    obtain ⟨a, v⟩ := p
    have ha : a ≠ nm := by
      intro he
      exact h (by simp [colNames, he])
    have hrest : nm ∉ colNames rest := by
      intro hm
      exact h (by simp [colNames] at hm ⊢; exact Or.inr hm)
    simp [setCol, ha, ih hrest]

/-- Frame consequences of `out = df ++` the six new columns. -/
theorem frame_of_append (df out : DataFrame) (c1 c2 c3 c4 c5 c6 : List Val)
    (hwork : "step_complete" ∉ colNames df)
    (heq : out = df ++ [("transition_left", c1), ("transition_right", c2),
      ("step_number_l", c3), ("step_number_r", c4),
      ("step_complete_l", c5), ("step_complete_r", c6)]) :
    (∃ d1 d2 d3 d4 d5 d6 : List Val,
      out = df ++ [("transition_left", d1), ("transition_right", d2),
        ("step_number_l", d3), ("step_number_r", d4),
        ("step_complete_l", d5), ("step_complete_r", d6)]) ∧
    colNames out = colNames df ++ newColNames ∧
    (∀ p ∈ df, p ∈ out) ∧
    "step_complete" ∉ colNames out := by
  subst heq
  refine ⟨⟨c1, c2, c3, c4, c5, c6, rfl⟩, ?_, fun p hp => List.mem_append_left _ hp, ?_⟩
  · rw [colNames_append]
    rfl
  · rw [colNames_append, List.mem_append]
    rintro (hm | hm)
    · exact hwork hm
    · simp [colNames] at hm

/-- C5 (amended): on a well-formed table (the six derived names and the
checker's working name are not already columns) for which `process_steps`
returns, the result is the input table itself followed by exactly the six
new columns, in order; every pre-existing column is unchanged and the
working column `step_complete` does not appear. -/
theorem process_steps_frame (df : DataFrame) (l r c : String) (out : DataFrame)
    (hfresh : ∀ nm ∈ newColNames, nm ∉ colNames df)
    (hwork : "step_complete" ∉ colNames df)
    (hout : process_steps df l r c = some out) :
    (∃ d1 d2 d3 d4 d5 d6 : List Val,
      out = df ++ [("transition_left", d1), ("transition_right", d2),
        ("step_number_l", d3), ("step_number_r", d4),
        ("step_complete_l", d5), ("step_complete_r", d6)]) ∧
    colNames out = colNames df ++ newColNames ∧
    (∀ p ∈ df, p ∈ out) ∧
    "step_complete" ∉ colNames out := by
  have hf1 : ("transition_left" : String) ∉ colNames df :=
    hfresh _ (by simp [newColNames])
  simp only [process_steps] at hout
  rw [setCol_fresh df "transition_left" hf1] at hout
  set d1 : DataFrame := df ++ [("transition_left",
    (check_transition priorCodes (colInts df l) (colStrs df c)).map Val.bool)] with hd1
  have hn1 : colNames d1 = colNames df ++ ["transition_left"] := by
    rw [hd1, colNames_append]
    rfl
  have hf2 : ("transition_right" : String) ∉ colNames d1 := by
    rw [hn1, List.mem_append]
    rintro (hm | hm)
    · exact hfresh _ (by simp [newColNames]) hm
    · simp at hm
  rw [setCol_fresh d1 "transition_right" hf2] at hout
  set d2 : DataFrame := d1 ++ [("transition_right",
    (check_transition priorCodes (colInts d1 r) (colStrs d1 c)).map Val.bool)] with hd2
  have hn2 : colNames d2 = colNames df ++ ["transition_left", "transition_right"] := by
    rw [hd2, colNames_append, hn1]
    simp [colNames]
  have hf3 : ("step_number_l" : String) ∉ colNames d2 := by
    rw [hn2, List.mem_append]
    rintro (hm | hm)
    · exact hfresh _ (by simp [newColNames]) hm
    · simp at hm
  rw [setCol_fresh d2 "step_number_l" hf3] at hout
  set d3 : DataFrame := d2 ++ [("step_number_l",
    (assign_step_number (colBools d2 "transition_left") 0).map Val.int)] with hd3
  have hn3 : colNames d3 =
      colNames df ++ ["transition_left", "transition_right", "step_number_l"] := by
    rw [hd3, colNames_append, hn2]
    simp [colNames]
  have hf4 : ("step_number_r" : String) ∉ colNames d3 := by
    rw [hn3, List.mem_append]
    rintro (hm | hm)
    · exact hfresh _ (by simp [newColNames]) hm
    · simp at hm
  rw [setCol_fresh d3 "step_number_r" hf4] at hout
  set d4 : DataFrame := d3 ++ [("step_number_r",
    (assign_step_number (colBools d3 "transition_right") 0).map Val.int)] with hd4
  have hn4 : colNames d4 = colNames df ++
      ["transition_left", "transition_right", "step_number_l", "step_number_r"] := by
    rw [hd4, colNames_append, hn3]
    simp [colNames]
  revert hout
  cases h1 : check_step_completeness (colInts d4 "step_number_l") (colInts d4 l)
      (colStrs d4 "condition") with
  | none =>
    intro hout
    exact absurd hout (by simp)
  | some fl =>
    intro hout
    dsimp only at hout
    have hf5 : ("step_complete_l" : String) ∉ colNames d4 := by
      rw [hn4, List.mem_append]
      rintro (hm | hm)
      · exact hfresh _ (by simp [newColNames]) hm
      · simp at hm
    rw [setCol_fresh d4 "step_complete_l" hf5] at hout
    set d5 : DataFrame := d4 ++ [("step_complete_l", fl.map Val.bool)] with hd5
    have hn5 : colNames d5 = colNames df ++
        ["transition_left", "transition_right", "step_number_l", "step_number_r",
         "step_complete_l"] := by
      rw [hd5, colNames_append, hn4]
      simp [colNames]
    revert hout
    cases h2 : check_step_completeness (colInts d5 "step_number_r") (colInts d5 r)
        (colStrs d5 "condition") with
    | none =>
      intro hout
      exact absurd hout (by simp)
    | some fr =>
      intro hout
      dsimp only at hout
      have hf6 : ("step_complete_r" : String) ∉ colNames d5 := by
        rw [hn5, List.mem_append]
        rintro (hm | hm)
        · exact hfresh _ (by simp [newColNames]) hm
        · simp at hm
      rw [setCol_fresh d5 "step_complete_r" hf6, Option.some_inj] at hout
      have heq := hout.symm
      rw [hd5, hd4, hd3, hd2, hd1] at heq
      simp only [List.append_assoc, List.singleton_append, List.cons_append,
        List.nil_append] at heq
      exact frame_of_append df out _ _ _ _ _ _ hwork heq

/-- C5 counterexample: this table is well-formed (integer ankle codes in
{0,1,2,3}, string conditions, the ordinary column names), yet
`process_steps` raises instead of returning an augmented table: no
transition fires, every row keeps step index 0, the single left-leg step
has exactly 3 distinct codes, and the checker's reference lookup of the
first step-1 row finds no such row. -/
theorem process_steps_frame_counterexample :
    process_steps
      [("ankle_l", [Val.int 1, Val.int 2, Val.int 3]),
       ("ankle_r", [Val.int 1, Val.int 1, Val.int 1]),
       ("condition", [Val.str "SM_WALKING", Val.str "SM_WALKING",
         Val.str "SM_WALKING"])]
      "ankle_l" "ankle_r" "condition" = none := by decide

/-- Witness for the amended C5 at a one-row table. -/
theorem process_steps_frame_witness :
    colNames
        [("ankle_l", [Val.int 1]), ("ankle_r", [Val.int 1]),
         ("condition", [Val.str "SM_WALKING"]),
         ("transition_left", [Val.bool false]), ("transition_right", [Val.bool false]),
         ("step_number_l", [Val.int 0]), ("step_number_r", [Val.int 0]),
         ("step_complete_l", [Val.bool false]), ("step_complete_r", [Val.bool false])] =
      colNames [("ankle_l", [Val.int 1]), ("ankle_r", [Val.int 1]),
        ("condition", [Val.str "SM_WALKING"])] ++ newColNames ∧
    "step_complete" ∉ colNames
        [("ankle_l", [Val.int 1]), ("ankle_r", [Val.int 1]),
         ("condition", [Val.str "SM_WALKING"]),
         ("transition_left", [Val.bool false]), ("transition_right", [Val.bool false]),
         ("step_number_l", [Val.int 0]), ("step_number_r", [Val.int 0]),
         ("step_complete_l", [Val.bool false]), ("step_complete_r", [Val.bool false])] :=
  have h := process_steps_frame
    [("ankle_l", [Val.int 1]), ("ankle_r", [Val.int 1]),
     ("condition", [Val.str "SM_WALKING"])]
    "ankle_l" "ankle_r" "condition"
    [("ankle_l", [Val.int 1]), ("ankle_r", [Val.int 1]),
     ("condition", [Val.str "SM_WALKING"]),
     ("transition_left", [Val.bool false]), ("transition_right", [Val.bool false]),
     ("step_number_l", [Val.int 0]), ("step_number_r", [Val.int 0]),
     ("step_complete_l", [Val.bool false]), ("step_complete_r", [Val.bool false])]
    (by decide) (by decide) (by decide)
  ⟨h.2.1, h.2.2.2⟩
